import Mathlib

/-!
Shallow embedding of `main.go` of the `lhls_test` repository: a fake LHLS
(live low-latency HLS) server that simulates a live stream from a static
media playlist.  Times and durations (Go `float64` seconds) are modelled
as rationals; the playlist is modelled as the list of decoded segments.
-/

set_option autoImplicit false

namespace LHLS

/-- A media segment of the playlist (`m3u8.MediaSegment`): its URI and its
duration in seconds. -/
structure Segment where
  uri : String
  duration : ℚ
deriving DecidableEq

/-- The decoded media playlist (`m3u8.MediaPlaylist`): the ordered segment
list and the target duration scalar. -/
structure MediaPlaylist where
  segments : List Segment
  targetDuration : ℚ
deriving DecidableEq

/-- `const futureTime = 5.0` (main.go:23): how much time to project into
the future. -/
def futureTime : ℚ := 5

/-- Sum of the durations of a list of segments. -/
def cumDur (segs : List Segment) : ℚ := (segs.map Segment.duration).sum

/-- The total playlist duration, as computed at startup (main.go:168-177):
the sum of all segment durations. -/
def totalDuration (pl : MediaPlaylist) : ℚ := cumDur pl.segments

/-- The window loop of `ServeManifest` (main.go:117-132).  Arguments mirror
the Go loop state: the remaining segments, the running index `i`, the
cumulative duration `curDuration`, the `sequence` value (initially `-1`),
and the segments appended to the output playlist so far.  `AppendSegment`
on the output playlist (created by `NewMediaPlaylist 10 10`, main.go:104)
fails once 10 segments are buffered and the error is ignored, hence the
`acc.length < 10` guard.  Returns the appended segments and `sequence`. -/
def manifestLoop (td t : ℚ) : List Segment → ℕ → ℚ → ℤ → List Segment → List Segment × ℤ
  | [], _, _, seq, acc => (acc, seq)
  | seg :: rest, i, cur, seq, acc =>
    let cur' := cur + seg.duration
    let seq' := if cur' + 3 * td > t then (if seq = -1 then (i : ℤ) else seq) else seq
    let acc' := if cur' + 3 * td > t then (if acc.length < 10 then acc ++ [seg] else acc) else acc
    if cur' > t + futureTime then (acc', seq')
    else manifestLoop td t rest (i + 1) cur' seq' acc'

/-- The elapsed stream time actually used by `ServeManifest`
(main.go:101,111-115): `time.Since(l.startTime)`, reset to `0` when the
total duration has strictly passed (`l.duration < curStreamTime`). -/
def effElapsed (pl : MediaPlaylist) (startTime now : ℚ) : ℚ :=
  if totalDuration pl < now - startTime then 0 else now - startTime

/-- The stream-start anchor after a manifest request (main.go:111-115):
re-anchored to `now` exactly when the reset fires. -/
def newStart (pl : MediaPlaylist) (startTime now : ℚ) : ℚ :=
  if totalDuration pl < now - startTime then now else startTime

/-- Result of a manifest request: the segments of the emitted playlist,
its `#EXT-X-MEDIA-SEQUENCE` value (`curPlaylist.SeqNo`, a `uint64`,
modelled as the natural number `uint64(sequence)`), and the handler's
`startTime` field after the request. -/
structure ManifestResult where
  window : List Segment
  seqNo : ℕ
  newStartTime : ℚ
deriving DecidableEq

/-- `FakeLHLSManifestHandler.ServeManifest` (main.go:100-138), with the
wall clock made explicit: `startTime` is the handler's stream anchor and
`now` the instant of the request.  `SeqNo = uint64(sequence)` is the Go
two's-complement conversion, modelled as `(sequence % 2^64).toNat`. -/
def ServeManifest (pl : MediaPlaylist) (startTime now : ℚ) : ManifestResult :=
  ⟨(manifestLoop pl.targetDuration (effElapsed pl startTime now) pl.segments 0 0 (-1) []).1,
   ((manifestLoop pl.targetDuration (effElapsed pl startTime now) pl.segments 0 0 (-1) []).2 % 2 ^ 64).toNat,
   newStart pl startTime now⟩

/-- ASCII lower-casing of a string's characters.  Go's `strings.EqualFold`
(simple Unicode case folding) is modelled, for the ASCII URIs at hand, as
equality of lower-cased character lists. -/
def lowerData (s : String) : List Char := s.data.map Char.toLower

/-- The segment-resolution loop of `ServeSegment` (main.go:61-69): find the
first playlist segment whose URI matches the request case-insensitively
(`strings.EqualFold`, modelled via `lowerData`), accumulating the durations
of the preceding segments into `segmentStartTime`. -/
def findSegment : List Segment → String → ℚ → Option (Segment × ℚ)
  | [], _, _ => none
  | seg :: rest, uri, segmentStartTime =>
    if lowerData seg.uri = lowerData uri then some (seg, segmentStartTime)
    else findSegment rest uri (segmentStartTime + seg.duration)

/-- Observable behaviour of a successful `ServeSegment` call: seconds
slept before any byte is written, the `curStreamTime` value used for the
rate computation, `rateDuration`, and the byte rate handed to the shaper. -/
structure SegmentResponse where
  sleepSeconds : ℚ
  effectiveElapsed : ℚ
  rateDuration : ℚ
  rateLimit : ℚ
deriving DecidableEq

/-- `FakeLHLSManifestHandler.ServeSegment` (main.go:42-98), abstracting the
HTTP layer and the filesystem: the backing file's byte size is a parameter
(the file-open/stat failures are environment errors outside the playlist
logic) and `elapsed` is `time.Since(l.startTime)` at the request.  An
unresolvable URI yields `none` (`http.NotFound`).  The sleep is
`time.Sleep(time.Duration(sleepDuration) * time.Second)` (main.go:80):
the Go conversion `time.Duration(sleepDuration)` truncates the positive
float64 to a whole number, so the actual sleep is `⌊startOffset - elapsed⌋`
whole seconds (floor equals truncation here since the gap is positive).
After waking, `curStreamTime` is set to `segmentStartTime` (main.go:82). -/
def ServeSegment (pl : MediaPlaylist) (uri : String) (elapsed : ℚ) (fileByteSize : ℚ) :
    Option SegmentResponse :=
  match findSegment pl.segments uri 0 with
  | none => none
  | some (seg, segmentStartTime) =>
    let sleep : ℚ := if elapsed < segmentStartTime then ((⌊segmentStartTime - elapsed⌋ : ℤ) : ℚ) else 0
    let cur : ℚ := if elapsed < segmentStartTime then segmentStartTime else elapsed
    let rd : ℚ := max (segmentStartTime + seg.duration - cur) 1
    some ⟨sleep, cur, rd, fileByteSize / rd⟩

/-! ### Routing (main.go:32-40 and main.go:180-198) -/

/-- What a request ultimately triggers: the windowed manifest generator,
the gated-and-shaped segment server, the verbatim static file server, or a
404. -/
inductive Action where
  | manifest : Action
  | segment : String → Action
  | file : String → Action
  | nothingFound : Action
deriving DecidableEq

/-- Go `strings.HasSuffix`, on the underlying character lists. -/
def hasSuffix (s suf : String) : Bool := suf.data.isSuffixOf s.data

/-- Go `strings.HasPrefix` (and the prefix test of `http.ServeMux`
patterns ending in `/`), on the underlying character lists. -/
def hasPrefixStr (s pat : String) : Bool := pat.data.isPrefixOf s.data

/-- Dropping the first `n` characters of a path (the slicing
`req.URL.EscapedPath()[len("/lhls/"):]` and `http.StripPrefix`). -/
def dropChars (s : String) (n : ℕ) : String := ⟨s.data.drop n⟩

/-- `FakeLHLSManifestHandler.ServeHTTP` (main.go:32-40): dispatch on the
escaped request path. -/
def serveHTTP (p : String) : Action :=
  if hasSuffix p "manifest.m3u8" then Action.manifest
  else if hasPrefixStr p "/lhls/" then Action.segment (dropChars p 6)
  else Action.nothingFound

/-- The `http.ServeMux` registrations of `main` (main.go:189-195):
`/live/manifest.m3u8` and everything under `/lhls/` go to the
`FakeLHLSManifestHandler`; other `/live/` paths go to
`http.StripPrefix("/live/", http.FileServer(...))`, which serves the
backing files verbatim.  Exact patterns win over prefix patterns. -/
def muxDispatch (p : String) : Action :=
  if p = "/live/manifest.m3u8" then serveHTTP p
  else if hasPrefixStr p "/live/" then Action.file (dropChars p 6)
  else if p = "/lhls/manifest.m3u8" then serveHTTP p
  else if hasPrefixStr p "/lhls/" then serveHTTP p
  else Action.nothingFound

/-- The handler's `startTime` field after serving the request at path `p`:
only the windowed manifest generator ever writes it (main.go:114). -/
def requestNewStartTime (pl : MediaPlaylist) (startTime now : ℚ) (p : String) : ℚ :=
  match muxDispatch p with
  | Action.manifest => (ServeManifest pl startTime now).newStartTime
  | _ => startTime

/-! ### Spec-side descriptions (for comparison with the code) -/

/-- Written from the spec's words (claim C1 / spec §8), for comparison
with `manifestLoop`: the segments visited before the break whose cursor
(cumulative duration after adding the segment) plus `3 × targetDuration`
exceeds `t`, the walk stopping as soon as the cursor exceeds
`t + futureTime`.  No capacity limit. -/
def specWindow (td t : ℚ) : ℚ → List Segment → List Segment
  | _, [] => []
  | cur, seg :: rest =>
    (if cur + seg.duration + 3 * td > t then [seg] else []) ++
      (if cur + seg.duration > t + futureTime then []
       else specWindow td t (cur + seg.duration) rest)

/-- Index (relative to the current position) of the first segment whose
cursor plus `3 × targetDuration` exceeds `t` — the spec's description of
the reported sequence number. -/
def specFirstQualIdx (td t : ℚ) : ℚ → List Segment → Option ℕ
  | _, [] => none
  | cur, seg :: rest =>
    if cur + seg.duration + 3 * td > t then some 0
    else (specFirstQualIdx td t (cur + seg.duration) rest).map (· + 1)

/-! ### Concrete playlists used as test inputs -/

/-- First segment of the spec §8 scenario. -/
def sA : Segment := ⟨"seg0.ts", 10⟩

/-- Second segment of the spec §8 scenario. -/
def sB : Segment := ⟨"seg1.ts", 10⟩

/-- Third segment of the spec §8 scenario. -/
def sC : Segment := ⟨"seg2.ts", 10⟩

/-- The spec §8 scenario playlist: three 10-second segments,
`targetDuration = 10`. -/
def pl3 : MediaPlaylist := ⟨[sA, sB, sC], 10⟩

/-- A playlist whose second segment starts at the fractional offset 5/2. -/
def plHalf : MediaPlaylist := ⟨[⟨"a.ts", 5/2⟩, ⟨"b.ts", 10⟩], 10⟩

/-- 11 one-second segments: at elapsed 8 all 11 are visited (the cursor
never exceeds 8 + 5) and all qualify, exceeding the output playlist's
capacity of 10. -/
def pl11 : MediaPlaylist := ⟨List.replicate 11 ⟨"s.ts", (1 : ℚ)⟩, 10⟩

/-- A playlist with a negative target duration (nothing in the decoder
forbids a negative `#EXT-X-TARGETDURATION`). -/
def plNeg : MediaPlaylist := ⟨[⟨"a.ts", 100⟩], -10⟩

/-- A playlist where no segment qualifies at elapsed 1: the single
1-second segment fails `1 + 3*0 > 1`, and no reset fires since
`totalDuration < 1` is false. -/
def plE : MediaPlaylist := ⟨[⟨"a.ts", 1⟩], 0⟩

/-- A one-segment playlist with a lower-case URI, for the case-insensitive
resolution scenario. -/
def plCase : MediaPlaylist := ⟨[⟨"seg001.ts", 10⟩], 10⟩

/-! ### Lemmas about the window loop -/

lemma cumDur_nil : cumDur [] = 0 := rfl

lemma cumDur_cons (s : Segment) (l : List Segment) :
    cumDur (s :: l) = s.duration + cumDur l := by
  simp [cumDur]

/-- The segments appended by the window loop are the spec-described window
truncated to the room left in the capacity-10 output playlist. -/
lemma manifestLoop_fst (td t : ℚ) (segs : List Segment) :
    ∀ (i : ℕ) (cur : ℚ) (seq : ℤ) (acc : List Segment),
    (manifestLoop td t segs i cur seq acc).1 =
      acc ++ (specWindow td t cur segs).take (10 - acc.length) := by
  induction segs with
  | nil => intro i cur seq acc; simp [manifestLoop, specWindow]
  | cons seg rest ih =>
    intro i cur seq acc
    by_cases hb : cur + seg.duration > t + futureTime
    · by_cases hc : cur + seg.duration + 3 * td > t
      · by_cases hl : acc.length < 10
        · obtain ⟨k, hk⟩ : ∃ k, 10 - acc.length = k + 1 := ⟨9 - acc.length, by omega⟩
          simp [manifestLoop, specWindow, hb, hc, hl, hk]
        · have hk : 10 - acc.length = 0 := by omega
          simp [manifestLoop, specWindow, hb, hc, hl, hk]
      · simp [manifestLoop, specWindow, hb, hc]
    · by_cases hc : cur + seg.duration + 3 * td > t
      · by_cases hl : acc.length < 10
        · have hk : 10 - acc.length = (9 - acc.length) + 1 := by omega
          have hk' : 10 - (acc ++ [seg]).length = 9 - acc.length := by
            simp only [List.length_append, List.length_singleton]; omega
          simp [manifestLoop, specWindow, hb, hc, hl, ih, hk, hk', List.take_succ_cons]
        · have hk : 10 - acc.length = 0 := by omega
          have hk' : ¬ acc.length < 10 := hl
          simp [manifestLoop, specWindow, hb, hc, hl, ih, hk]
      · simp [manifestLoop, specWindow, hb, hc, ih]

/-- If the spec window is empty (no segment ever qualifies while visited),
the loop never sets `sequence` and returns `-1`. -/
lemma manifestLoop_snd_of_specWindow_nil (td t : ℚ) (segs : List Segment) :
    ∀ (i : ℕ) (cur : ℚ) (acc : List Segment), specWindow td t cur segs = [] →
      (manifestLoop td t segs i cur (-1) acc).2 = -1 := by
  induction segs with
  | nil => intro i cur acc _; simp [manifestLoop]
  | cons seg rest ih =>
    intro i cur acc hw
    by_cases hc : cur + seg.duration + 3 * td > t
    · exfalso; simp [specWindow, hc] at hw
    · by_cases hb : cur + seg.duration > t + futureTime
      · simp [manifestLoop, hb, hc]
      · have hw' : specWindow td t (cur + seg.duration) rest = [] := by
          simpa [specWindow, hc, hb] using hw
        simp [manifestLoop, hb, hc, ih _ _ _ hw']

/-- Once `sequence` has been set, the loop never changes it. -/
lemma manifestLoop_snd_const (td t : ℚ) (segs : List Segment) :
    ∀ (i : ℕ) (cur : ℚ) (seq : ℤ) (acc : List Segment), seq ≠ -1 →
      (manifestLoop td t segs i cur seq acc).2 = seq := by
  induction segs with
  | nil => intro i cur seq acc _; simp [manifestLoop]
  | cons seg rest ih =>
    intro i cur seq acc hs
    by_cases hc : cur + seg.duration + 3 * td > t <;>
      by_cases hb : cur + seg.duration > t + futureTime <;>
      simp [manifestLoop, hc, hb, hs, ih _ _ _ _ hs]

/-- With a nonnegative target duration, the `sequence` the loop computes
is the index of the first qualifying segment (the break can never fire on
a segment that does not itself qualify). -/
lemma manifestLoop_snd_eq (td t : ℚ) (htd : 0 ≤ td) (segs : List Segment) :
    ∀ (i : ℕ) (cur : ℚ) (acc : List Segment),
      (manifestLoop td t segs i cur (-1) acc).2 =
        Option.elim (specFirstQualIdx td t cur segs) (-1) (fun j => ((i + j : ℕ) : ℤ)) := by
  induction segs with
  | nil => intro i cur acc; simp [manifestLoop, specFirstQualIdx]
  | cons seg rest ih =>
    intro i cur acc
    by_cases hc : cur + seg.duration + 3 * td > t
    · by_cases hb : cur + seg.duration > t + futureTime
      · simp [manifestLoop, specFirstQualIdx, hc, hb]
      · have hne : (i : ℤ) ≠ -1 := by omega
        simp [manifestLoop, specFirstQualIdx, hc, hb,
          manifestLoop_snd_const td t rest _ _ _ _ hne]
    · by_cases hb : cur + seg.duration > t + futureTime
      · exfalso
        have h5 : futureTime = 5 := rfl
        rw [h5] at hb
        push_neg at hc
        linarith
      · have hloop : (manifestLoop td t (seg :: rest) i cur (-1) acc).2 =
            (manifestLoop td t rest (i + 1) (cur + seg.duration) (-1) acc).2 := by
          simp [manifestLoop, hc, hb, ite_self]
        rw [hloop, ih (i + 1)]
        have hq : specFirstQualIdx td t cur (seg :: rest) =
            (specFirstQualIdx td t (cur + seg.duration) rest).map (· + 1) := by
          simp [specFirstQualIdx, hc]
        rw [hq]
        cases specFirstQualIdx td t (cur + seg.duration) rest with
        | none => simp
        | some j =>
          simp only [Option.map_some', Option.elim]
          push_cast
          ring

/-- The first qualifying index can only move to the right as elapsed time
grows: whatever qualifies at the later time already qualified earlier. -/
lemma specFirstQualIdx_mono (td t1 t2 : ℚ) (h12 : t1 ≤ t2) (segs : List Segment) :
    ∀ (cur : ℚ) (j2 : ℕ), specFirstQualIdx td t2 cur segs = some j2 →
      ∃ j1, j1 ≤ j2 ∧ specFirstQualIdx td t1 cur segs = some j1 := by
  induction segs with
  | nil => intro cur j2 h; simp [specFirstQualIdx] at h
  | cons seg rest ih =>
    intro cur j2 h
    by_cases hc1 : cur + seg.duration + 3 * td > t1
    · exact ⟨0, Nat.zero_le _, by simp [specFirstQualIdx, hc1]⟩
    · have hc2 : ¬ cur + seg.duration + 3 * td > t2 := fun h2 => hc1 (lt_of_le_of_lt h12 h2)
      simp only [specFirstQualIdx, hc2, if_neg, ite_false, Option.map_eq_some'] at h
      obtain ⟨j2', hj2', hplus⟩ := h
      obtain ⟨j1, hle, hj1⟩ := ih (cur + seg.duration) j2' hj2'
      exact ⟨j1 + 1, by omega, by simp [specFirstQualIdx, hc1, hj1]⟩

/-- If the total remaining duration (plus the safety margin) exceeds the
elapsed time, some segment qualifies. -/
lemma specFirstQualIdx_isSome (td t : ℚ) (segs : List Segment) :
    ∀ cur : ℚ, segs ≠ [] → t < cur + cumDur segs + 3 * td →
      ∃ j, specFirstQualIdx td t cur segs = some j := by
  induction segs with
  | nil => intro cur h _; exact absurd rfl h
  | cons seg rest ih =>
    intro cur _ ht
    by_cases hc : cur + seg.duration + 3 * td > t
    · exact ⟨0, by simp [specFirstQualIdx, hc]⟩
    · cases rest with
      | nil =>
        exfalso
        rw [cumDur_cons, cumDur_nil] at ht
        push_neg at hc
        linarith
      | cons s' r' =>
        have ht' : t < cur + seg.duration + cumDur (s' :: r') + 3 * td := by
          rw [cumDur_cons] at ht; linarith
        obtain ⟨j, hj⟩ := ih (cur + seg.duration) (by simp) ht'
        refine ⟨j + 1, ?_⟩
        generalize hl : s' :: r' = l at hj
        simp [specFirstQualIdx, hc, hj]

/-- Once the inclusion condition holds at the current cursor, the spec
window is a prefix of the remaining segments, and every segment up to its
end has start offset at most `t + futureTime`. -/
lemma specWindow_take_of_cond (td t : ℚ) (segs : List Segment) :
    ∀ cur : ℚ, (∀ s ∈ segs, 0 ≤ s.duration) → cur + 3 * td > t → cur ≤ t + futureTime →
    ∃ m, specWindow td t cur segs = segs.take m ∧
      ∀ i < m, cur + cumDur (segs.take i) ≤ t + futureTime := by
  induction segs with
  | nil =>
    intro cur _ _ _
    exact ⟨0, by simp [specWindow], by simp⟩
  | cons seg rest ih =>
    intro cur hd hcond hcur
    have hd0 : 0 ≤ seg.duration := hd seg (by simp)
    have hc : cur + seg.duration + 3 * td > t := by linarith
    by_cases hb : cur + seg.duration > t + futureTime
    · refine ⟨1, by simp [specWindow, hc, hb], ?_⟩
      intro i hi
      interval_cases i
      simpa [cumDur_nil] using hcur
    · push_neg at hb
      obtain ⟨m, hm, hbound⟩ := ih (cur + seg.duration)
        (fun s hs => hd s (by simp [hs])) (by linarith) hb
      refine ⟨m + 1, ?_, ?_⟩
      · simp [specWindow, hc, not_lt.2 hb, hm]
      · intro i hi
        cases i with
        | zero => simpa [cumDur_nil] using hcur
        | succ j =>
          have hj : j < m := by omega
          have hbj := hbound j hj
          rw [List.take_succ_cons, cumDur_cons]
          linarith

/-- The spec window is always a contiguous run of the playlist, and every
index up to the end of that run has start offset at most
`t + futureTime`. -/
lemma specWindow_drop_take (td t : ℚ) (segs : List Segment) :
    ∀ cur : ℚ, (∀ s ∈ segs, 0 ≤ s.duration) → cur ≤ t + futureTime →
    ∃ a b, specWindow td t cur segs = (segs.drop a).take b ∧
      ∀ i < a + b, cur + cumDur (segs.take i) ≤ t + futureTime := by
  induction segs with
  | nil =>
    intro cur _ _
    exact ⟨0, 0, by simp [specWindow], by simp⟩
  | cons seg rest ih =>
    intro cur hd hcur
    by_cases hc : cur + seg.duration + 3 * td > t
    · by_cases hb : cur + seg.duration > t + futureTime
      · refine ⟨0, 1, by simp [specWindow, hc, hb], ?_⟩
        intro i hi
        interval_cases i
        simpa [cumDur_nil] using hcur
      · push_neg at hb
        obtain ⟨m, hm, hbound⟩ := specWindow_take_of_cond td t rest (cur + seg.duration)
          (fun s hs => hd s (by simp [hs])) hc hb
        refine ⟨0, m + 1, ?_, ?_⟩
        · simp [specWindow, hc, not_lt.2 hb, hm]
        · intro i hi
          cases i with
          | zero => simpa [cumDur_nil] using hcur
          | succ j =>
            have hj : j < m := by omega
            have hbj := hbound j hj
            rw [List.take_succ_cons, cumDur_cons]
            linarith
    · by_cases hb : cur + seg.duration > t + futureTime
      · exact ⟨0, 0, by simp [specWindow, hc, hb], by simp⟩
      · push_neg at hb
        obtain ⟨a, b, hab, hbound⟩ := ih (cur + seg.duration)
          (fun s hs => hd s (by simp [hs])) hb
        refine ⟨a + 1, b, ?_, ?_⟩
        · simp [specWindow, hc, not_lt.2 hb, hab]
        · intro i hi
          cases i with
          | zero => simpa [cumDur_nil] using hcur
          | succ j =>
            have hj : j < a + b := by omega
            have hbj := hbound j hj
            rw [List.take_succ_cons, cumDur_cons]
            linarith

/-- Resolution fails exactly when no playlist segment matches the
requested URI case-insensitively. -/
lemma findSegment_eq_none (uri : String) (segs : List Segment) :
    ∀ acc : ℚ, (findSegment segs uri acc = none ↔
      ∀ s ∈ segs, lowerData s.uri ≠ lowerData uri) := by
  induction segs with
  | nil => intro acc; simp [findSegment]
  | cons seg rest ih =>
    intro acc
    by_cases h : lowerData seg.uri = lowerData uri
    · simp [findSegment, h]
    · simp [findSegment, h, ih]

/-- A successful resolution returns the first case-insensitive match, with
the sum of the durations of all preceding segments added to the running
accumulator. -/
lemma findSegment_eq_some (uri : String) (segs : List Segment) :
    ∀ (acc : ℚ) (seg : Segment) (off : ℚ),
      findSegment segs uri acc = some (seg, off) →
      ∃ i, ∃ h : i < segs.length, seg = segs.get ⟨i, h⟩ ∧
        lowerData seg.uri = lowerData uri ∧
        (∀ j (hj : j < segs.length), j < i →
          lowerData (segs.get ⟨j, hj⟩).uri ≠ lowerData uri) ∧
        off = acc + cumDur (segs.take i) := by
  induction segs with
  | nil => intro acc seg off h; simp [findSegment] at h
  | cons s0 rest ih =>
    intro acc seg off h
    by_cases hm : lowerData s0.uri = lowerData uri
    · rw [findSegment, if_pos hm] at h
      obtain ⟨rfl, rfl⟩ : s0 = seg ∧ acc = off := by
        simpa [Prod.ext_iff, eq_comm] using h
      refine ⟨0, by simp, by simp, hm, ?_, by simp [cumDur_nil]⟩
      intro j hj hj0
      omega
    · rw [findSegment, if_neg hm] at h
      obtain ⟨i, hi, hseg, hmatch, hbefore, hoff⟩ := ih (acc + s0.duration) seg off h
      refine ⟨i + 1, by simpa using Nat.succ_lt_succ hi, by simpa using hseg, hmatch, ?_, ?_⟩
      · intro j hj hji
        cases j with
        | zero => simpa using hm
        | succ j' =>
          have hj' : j' < rest.length := by simpa using Nat.lt_of_succ_lt_succ hj
          have := hbefore j' hj' (by omega)
          simpa using this
      · rw [List.take_succ_cons, cumDur_cons] at *
        rw [hoff]; ring

/-! ### Claim theorems -/

/-- Claim C1, counterexample: for 11 one-second segments at elapsed 8 all
11 segments are visited and qualify before the break, but the produced
window holds only the first 10 of them (output playlist capacity), so the
window is not exactly the qualifying segments as the claim states. -/
theorem c1_counterexample :
    (∀ s ∈ pl11.segments, 0 < s.duration) ∧ (0 : ℚ) ≤ 8 ∧
    (8 : ℚ) < totalDuration pl11 ∧
    (ServeManifest pl11 0 8).window ≠
      specWindow pl11.targetDuration 8 0 pl11.segments := by
  refine ⟨?_, by norm_num, ?_, ?_⟩
  · intro s hs
    rw [pl11] at hs
    simp only [List.mem_replicate] at hs
    rw [hs.2]
    norm_num
  · norm_num [totalDuration, cumDur, pl11, List.map_replicate, List.sum_replicate,
      nsmul_eq_mul]
  · norm_num [ServeManifest, manifestLoop, effElapsed, newStart, totalDuration, cumDur, futureTime, specWindow, pl11,
      List.replicate_succ, List.replicate_zero]

/-- Claim C1 (amended): for every playlist with positive segment durations
and every elapsed `t` in `[0, totalDuration)`, the window produced by
`ServeManifest` consists of the first (at most) 10 of the segments visited
before the break whose cursor plus `3 × targetDuration` exceeds `t`; that
qualifying run is a contiguous run of the playlist, and every segment of it
has nominal start offset at most `t + 5`. -/
theorem c1_window_characterization (pl : MediaPlaylist) (t : ℚ)
    (hd : ∀ s ∈ pl.segments, 0 < s.duration) (h0 : 0 ≤ t)
    (ht : t < totalDuration pl) :
    (ServeManifest pl 0 t).window =
      (specWindow pl.targetDuration t 0 pl.segments).take 10 ∧
    ∃ a b, specWindow pl.targetDuration t 0 pl.segments = (pl.segments.drop a).take b ∧
      ∀ i < a + b, cumDur (pl.segments.take i) ≤ t + futureTime := by
  have heff : effElapsed pl 0 t = t := by
    simp only [effElapsed, sub_zero]
    rw [if_neg (not_lt.2 ht.le)]
  constructor
  · have h := manifestLoop_fst pl.targetDuration t pl.segments 0 0 (-1) []
    simpa [ServeManifest, heff] using h
  · have hcur : (0 : ℚ) ≤ t + futureTime := by
      have h5 : futureTime = 5 := rfl
      rw [h5]; linarith
    obtain ⟨a, b, hab, hbound⟩ := specWindow_drop_take pl.targetDuration t pl.segments 0
      (fun s hs => (hd s hs).le) hcur
    exact ⟨a, b, hab, fun i hi => by simpa using hbound i hi⟩

/-- Witness for the amended C1 at the spec scenario playlist and `t = 0`. -/
theorem c1_window_witness :
    (ServeManifest pl3 0 0).window =
      (specWindow pl3.targetDuration 0 0 pl3.segments).take 10 ∧
    ∃ a b, specWindow pl3.targetDuration 0 0 pl3.segments = (pl3.segments.drop a).take b ∧
      ∀ i < a + b, cumDur (pl3.segments.take i) ≤ 0 + futureTime :=
  c1_window_characterization pl3 0 (by norm_num [pl3, sA, sB, sC]) le_rfl
    (by norm_num [totalDuration, cumDur, pl3, sA, sB, sC])

/-- Claim C2, counterexample: at elapsed 0 the break fires already at
segment 0 (cursor 10 > 0 + 5), so the window is `[segment0]`, not the
`[segment0, segment1]` the claim (following the spec's miscomputed
stop-check) asserts. -/
theorem c2_counterexample : (ServeManifest pl3 0 0).window ≠ [sA, sB] := by
  norm_num [ServeManifest, manifestLoop, effElapsed, newStart, totalDuration, cumDur, futureTime, pl3, sA, sB, sC]

/-- Claim C2 (amended): for the 3×10s playlist with `targetDuration = 10`,
the window at elapsed 0 is `[segment0]` with sequence number 0, and a
request for segment index 2 (start offset 20) at elapsed 0 computes a
20-second blocking delay before any bytes are delivered. -/
theorem c2_scenario :
    (ServeManifest pl3 0 0).window = [sA] ∧
    (ServeManifest pl3 0 0).seqNo = 0 ∧
    (ServeSegment pl3 "seg2.ts" 0 1000).map SegmentResponse.sleepSeconds = some 20 := by
  have hf : findSegment pl3.segments "seg2.ts" 0 = some (sC, 20) := by
    have h0 : lowerData "seg0.ts" ≠ lowerData "seg2.ts" := by decide
    have h1 : lowerData "seg1.ts" ≠ lowerData "seg2.ts" := by decide
    norm_num [findSegment, pl3, sA, sB, sC, h0, h1]
  refine ⟨?_, ?_, ?_⟩
  · norm_num [ServeManifest, manifestLoop, effElapsed, newStart, totalDuration, cumDur, futureTime, pl3, sA, sB, sC]
  · norm_num [ServeManifest, manifestLoop, effElapsed, newStart, totalDuration, cumDur, futureTime, pl3, sA, sB, sC]
  · simp only [ServeSegment, hf, sC]
    norm_num

/-- Claim C3, counterexample: the second segment of `plHalf` has start
offset 5/2, but at elapsed 0 the code sleeps only 2 seconds (Go truncates
the float64 sleep seconds to a whole `time.Duration` count), not the
claimed exact `5/2 − 0`. -/
theorem c3_counterexample :
    findSegment plHalf.segments "b.ts" 0 = some (⟨"b.ts", 10⟩, 5 / 2) ∧
    (ServeSegment plHalf "b.ts" 0 100).map SegmentResponse.sleepSeconds = some 2 ∧
    (2 : ℚ) ≠ 5 / 2 - 0 := by
  have h0 : lowerData "a.ts" ≠ lowerData "b.ts" := by decide
  have hf : findSegment plHalf.segments "b.ts" 0 = some (⟨"b.ts", 10⟩, 5 / 2) := by
    norm_num [findSegment, plHalf, h0]
  refine ⟨hf, ?_, by norm_num⟩
  simp only [ServeSegment, hf]
  norm_num

/-- Claim C3 (amended): for a resolved segment whose start offset is still
in the future, `ServeSegment` suspends for `⌊startOffset − elapsed⌋` whole
seconds (the fractional part is dropped by Go's float-to-`time.Duration`
conversion; this equals `startOffset − elapsed` exactly only when that gap
is a whole number of seconds), and after waking uses `startOffset` — not a
re-measured clock — as the effective elapsed time. -/
theorem c3_gate (pl : MediaPlaylist) (uri : String) (t size : ℚ)
    (seg : Segment) (start : ℚ)
    (hfind : findSegment pl.segments uri 0 = some (seg, start)) (hfut : t < start) :
    ∃ r, ServeSegment pl uri t size = some r ∧
      r.sleepSeconds = ((⌊start - t⌋ : ℤ) : ℚ) ∧
      r.effectiveElapsed = start := by
  have h : ServeSegment pl uri t size =
      some ⟨((⌊start - t⌋ : ℤ) : ℚ), start, max (start + seg.duration - start) 1,
        size / max (start + seg.duration - start) 1⟩ := by
    simp only [ServeSegment, hfind]
    simp [hfut]
  exact ⟨_, h, rfl, rfl⟩

/-- Witness for the amended C3: segment 2 of the spec scenario requested
at elapsed 0 sleeps `⌊20⌋ = 20` seconds and then computes rates as of
stream time 20. -/
theorem c3_gate_witness :
    ∃ r, ServeSegment pl3 "seg2.ts" 0 1000 = some r ∧
      r.sleepSeconds = ((⌊(20 : ℚ) - 0⌋ : ℤ) : ℚ) ∧
      r.effectiveElapsed = 20 :=
  c3_gate pl3 "seg2.ts" 0 1000 sC 20
    (by
      have h0 : lowerData "seg0.ts" ≠ lowerData "seg2.ts" := by decide
      have h1 : lowerData "seg1.ts" ≠ lowerData "seg2.ts" := by decide
      norm_num [findSegment, pl3, sA, sB, sC, h0, h1])
    (by norm_num)

/-- Claim C4 (confirmed): every successful `ServeSegment` call uses the
rate divisor `max (startOffset + duration − effectiveElapsed) 1` — hence
the divisor is at least 1 and never zero — and the target byte rate is the
file size divided by it.  The effective elapsed time is
`max elapsed startOffset` (equal to `startOffset` after a gate sleep). -/
theorem c4_rate_shape (pl : MediaPlaylist) (uri : String) (t size : ℚ)
    (r : SegmentResponse) (h : ServeSegment pl uri t size = some r) :
    1 ≤ r.rateDuration ∧ r.rateLimit = size / r.rateDuration ∧
    ∃ seg start, findSegment pl.segments uri 0 = some (seg, start) ∧
      r.rateDuration = max (start + seg.duration - max t start) 1 := by
  cases hf : findSegment pl.segments uri 0 with
  | none => simp [ServeSegment, hf] at h
  | some p =>
    obtain ⟨seg, start⟩ := p
    simp only [ServeSegment, hf, Option.some.injEq] at h
    subst h
    have hmax : (if t < start then start else t) = max t start := by
      split_ifs with h'
      · exact (max_eq_right h'.le).symm
      · exact (max_eq_left (le_of_not_lt h')).symm
    refine ⟨le_max_right _ _, rfl, seg, start, rfl, ?_⟩
    rw [hmax]

/-- Witness for C4: segment 1 requested at elapsed 25 is already mostly
past, so the remaining play time floors at 1 and the rate is the whole
file size per second. -/
theorem c4_rate_shape_witness :
    1 ≤ (⟨0, 25, 1, 1000⟩ : SegmentResponse).rateDuration ∧
    (⟨0, 25, 1, 1000⟩ : SegmentResponse).rateLimit =
      1000 / (⟨0, 25, 1, 1000⟩ : SegmentResponse).rateDuration ∧
    ∃ seg start, findSegment pl3.segments "seg1.ts" 0 = some (seg, start) ∧
      (⟨0, 25, 1, 1000⟩ : SegmentResponse).rateDuration =
        max (start + seg.duration - max 25 start) 1 :=
  c4_rate_shape pl3 "seg1.ts" 25 1000 ⟨0, 25, 1, 1000⟩
    (by
      have h0 : lowerData "seg0.ts" ≠ lowerData "seg1.ts" := by decide
      have hf : findSegment pl3.segments "seg1.ts" 0 = some (sB, 10) := by
        norm_num [findSegment, pl3, sA, sB, sC, h0]
      simp only [ServeSegment, hf, sB]
      norm_num [max_def])

/-- Claim C5, counterexample: at elapsed exactly `totalDuration` (30) the
reset does not fire (the code tests `l.duration < curStreamTime` strictly):
the window differs from the elapsed-0 window and the stream clock is not
re-anchored, contradicting the claim's `elapsed ≥ totalDuration`. -/
theorem c5_counterexample :
    totalDuration pl3 ≤ (30 : ℚ) - 0 ∧
    (ServeManifest pl3 0 30).window ≠ (ServeManifest pl3 0 0).window ∧
    (ServeManifest pl3 0 30).newStartTime ≠ 30 := by
  refine ⟨?_, ?_, ?_⟩
  · norm_num [totalDuration, cumDur, pl3, sA, sB, sC]
  · norm_num [ServeManifest, manifestLoop, effElapsed, newStart, totalDuration,
      cumDur, futureTime, pl3, sA, sB, sC]
    exact List.cons_ne_nil _ _
  · norm_num [ServeManifest, manifestLoop, effElapsed, newStart, totalDuration,
      cumDur, futureTime, pl3, sA, sB, sC]

/-- Claim C5 (amended): for every manifest request with elapsed strictly
greater than `totalDuration`, `ServeManifest` computes the window and
sequence number as an elapsed-0 request would and re-anchors the stream
clock to the current instant, so the simulated stream loops. -/
theorem c5_loop_reset (pl : MediaPlaylist) (startTime now : ℚ)
    (h : totalDuration pl < now - startTime) :
    (ServeManifest pl startTime now).window = (ServeManifest pl 0 0).window ∧
    (ServeManifest pl startTime now).seqNo = (ServeManifest pl 0 0).seqNo ∧
    (ServeManifest pl startTime now).newStartTime = now := by
  have h1 : effElapsed pl startTime now = 0 := by simp [effElapsed, h]
  have h2 : effElapsed pl 0 0 = 0 := by simp [effElapsed]
  have h3 : newStart pl startTime now = now := by simp [newStart, h]
  refine ⟨?_, ?_, ?_⟩ <;> simp [ServeManifest, h1, h2, h3]

/-- Witness for the amended C5: elapsed 31 on the 30-second playlist. -/
theorem c5_loop_reset_witness :
    (ServeManifest pl3 0 31).window = (ServeManifest pl3 0 0).window ∧
    (ServeManifest pl3 0 31).seqNo = (ServeManifest pl3 0 0).seqNo ∧
    (ServeManifest pl3 0 31).newStartTime = 31 :=
  c5_loop_reset pl3 0 31 (by norm_num [totalDuration, cumDur, pl3, sA, sB, sC])

/-- Claim C6, counterexample: with a negative target duration (which no
hypothesis of the claim excludes) the break can fire before any segment
qualifies: at `t1 = 0` the sequence is 0, at `t2 = 80` it is `-1`, so the
sequence number decreases although `0 < 80 < totalDuration`. -/
theorem c6_counterexample :
    (∀ s ∈ plNeg.segments, 0 < s.duration) ∧ (0 : ℚ) ≤ 0 ∧ (0 : ℚ) < 80 ∧
    (80 : ℚ) < totalDuration plNeg ∧
    ¬ ((manifestLoop plNeg.targetDuration 0 plNeg.segments 0 0 (-1) []).2 ≤
       (manifestLoop plNeg.targetDuration 80 plNeg.segments 0 0 (-1) []).2) := by
  refine ⟨?_, le_rfl, by norm_num, ?_, ?_⟩
  · norm_num [plNeg]
  · norm_num [totalDuration, cumDur, plNeg]
  · norm_num [manifestLoop, futureTime, plNeg]

/-- Claim C6 (amended): for every playlist with positive segment durations
and nonnegative target duration, and all `0 ≤ t1 < t2 < totalDuration`
(no loop reset between them), the sequence number computed by the window
loop at `t2` is at least the one computed at `t1`. -/
theorem c6_sequence_monotone (pl : MediaPlaylist) (t1 t2 : ℚ)
    (_hd : ∀ s ∈ pl.segments, 0 < s.duration) (htd : 0 ≤ pl.targetDuration)
    (_h0 : 0 ≤ t1) (h12 : t1 < t2) (h2 : t2 < totalDuration pl) :
    (manifestLoop pl.targetDuration t1 pl.segments 0 0 (-1) []).2 ≤
    (manifestLoop pl.targetDuration t2 pl.segments 0 0 (-1) []).2 := by
  have hne : pl.segments ≠ [] := by
    intro he
    rw [totalDuration, he, cumDur_nil] at h2
    linarith
  have hq2 : t2 < 0 + cumDur pl.segments + 3 * pl.targetDuration := by
    rw [totalDuration] at h2; linarith
  obtain ⟨j2, hj2⟩ := specFirstQualIdx_isSome pl.targetDuration t2 pl.segments 0 hne hq2
  obtain ⟨j1, hle, hj1⟩ :=
    specFirstQualIdx_mono pl.targetDuration t1 t2 h12.le pl.segments 0 j2 hj2
  rw [manifestLoop_snd_eq pl.targetDuration t1 htd pl.segments 0 0 [],
    manifestLoop_snd_eq pl.targetDuration t2 htd pl.segments 0 0 [], hj1, hj2]
  simpa using hle

/-- Witness for the amended C6 at the spec scenario, `t1 = 0`, `t2 = 15`. -/
theorem c6_sequence_monotone_witness :
    (manifestLoop pl3.targetDuration 0 pl3.segments 0 0 (-1) []).2 ≤
    (manifestLoop pl3.targetDuration 15 pl3.segments 0 0 (-1) []).2 :=
  c6_sequence_monotone pl3 0 15 (by norm_num [pl3, sA, sB, sC]) (by norm_num [pl3])
    le_rfl (by norm_num) (by norm_num [totalDuration, cumDur, pl3, sA, sB, sC])

/-- Claim C7 (confirmed): `ServeSegment` resolves the request URI against
the playlist case-insensitively; it fails (NotFound) exactly when no
segment matches, and a successful resolution returns the first
case-insensitive match with the sum of the preceding durations as its
nominal start offset. -/
theorem c7_resolution (pl : MediaPlaylist) (uri : String) (t size : ℚ) :
    (ServeSegment pl uri t size = none ↔
      ∀ s ∈ pl.segments, lowerData s.uri ≠ lowerData uri) ∧
    ∀ seg off, findSegment pl.segments uri 0 = some (seg, off) →
      ∃ i, ∃ h : i < pl.segments.length, seg = pl.segments.get ⟨i, h⟩ ∧
        lowerData seg.uri = lowerData uri ∧
        (∀ j (hj : j < pl.segments.length), j < i →
          lowerData (pl.segments.get ⟨j, hj⟩).uri ≠ lowerData uri) ∧
        off = cumDur (pl.segments.take i) := by
  constructor
  · rw [← findSegment_eq_none uri pl.segments 0]
    constructor
    · intro h
      cases hf : findSegment pl.segments uri 0 with
      | none => rfl
      | some p =>
        obtain ⟨seg, off⟩ := p
        simp [ServeSegment, hf] at h
    · intro h
      simp [ServeSegment, h]
  · intro seg off h
    obtain ⟨i, hi, h1, h2, h3, h4⟩ := findSegment_eq_some uri pl.segments 0 seg off h
    exact ⟨i, hi, h1, h2, h3, by rw [h4, zero_add]⟩

/-- Witness for C7: the request `SEG001.ts` resolves against the stored
`seg001.ts` (case-insensitive match) at start offset 0. -/
theorem c7_resolution_witness :
    ∃ i, ∃ h : i < plCase.segments.length,
      (⟨"seg001.ts", 10⟩ : Segment) = plCase.segments.get ⟨i, h⟩ ∧
      lowerData (⟨"seg001.ts", 10⟩ : Segment).uri = lowerData "SEG001.ts" ∧
      (∀ j (hj : j < plCase.segments.length), j < i →
        lowerData (plCase.segments.get ⟨j, hj⟩).uri ≠ lowerData "SEG001.ts") ∧
      (0 : ℚ) = cumDur (plCase.segments.take i) :=
  (c7_resolution plCase "SEG001.ts" 0 1).2 ⟨"seg001.ts", 10⟩ 0
    (by
      have h0 : lowerData "seg001.ts" = lowerData "SEG001.ts" := by decide
      norm_num [findSegment, plCase, h0])

/-- Claim C8 (confirmed): when no segment qualifies for the window, the
loop's `sequence` stays `-1` and the manifest's sequence-number field is
`uint64(-1) = 2^64 - 1`. -/
theorem c8_empty_window_sentinel (pl : MediaPlaylist) (startTime now : ℚ)
    (h : (ServeManifest pl startTime now).window = []) :
    (ServeManifest pl startTime now).seqNo = 2 ^ 64 - 1 := by
  have hw : (manifestLoop pl.targetDuration (effElapsed pl startTime now)
      pl.segments 0 0 (-1) []).1 = [] := h
  rw [manifestLoop_fst] at hw
  simp only [List.nil_append, List.length_nil, Nat.sub_zero] at hw
  have hnil : specWindow pl.targetDuration (effElapsed pl startTime now) 0 pl.segments = [] := by
    rcases List.take_eq_nil_iff.mp hw with h10 | hn
    · exact absurd h10 (by omega)
    · exact hn
  have hs := manifestLoop_snd_of_specWindow_nil pl.targetDuration
    (effElapsed pl startTime now) pl.segments 0 0 [] hnil
  show ((manifestLoop pl.targetDuration (effElapsed pl startTime now)
      pl.segments 0 0 (-1) []).2 % 2 ^ 64).toNat = 2 ^ 64 - 1
  rw [hs]
  decide

/-- Witness for C8: a playlist whose single 1-second segment does not
qualify at elapsed 1 (`1 + 3×0 > 1` fails, and no reset fires). -/
theorem c8_empty_window_sentinel_witness :
    (ServeManifest plE 0 1).seqNo = 2 ^ 64 - 1 :=
  c8_empty_window_sentinel plE 0 1
    (by norm_num [ServeManifest, manifestLoop, effElapsed, newStart, totalDuration, cumDur, futureTime, plE])

/-- Claim C9, counterexample: `/live/manifest.m3u8` is routed to the same
windowing `FakeLHLSManifestHandler`, which both windows the playlist and
can re-anchor the stream clock — here a `/live/` request moves
`streamStart` from 0 to 31, and the manifest it serves at elapsed 0 is not
the original playlist. -/
theorem c9_counterexample :
    hasPrefixStr "/live/manifest.m3u8" "/live/" = true ∧
    muxDispatch "/live/manifest.m3u8" = Action.manifest ∧
    requestNewStartTime pl3 0 31 "/live/manifest.m3u8" = 31 ∧ (31 : ℚ) ≠ 0 ∧
    (ServeManifest pl3 0 0).window ≠ pl3.segments := by
  have hd : muxDispatch "/live/manifest.m3u8" = Action.manifest := by decide
  refine ⟨by decide, hd, ?_, by norm_num, ?_⟩
  · simp only [requestNewStartTime, hd]
    norm_num [ServeManifest, newStart, totalDuration, cumDur, pl3, sA, sB, sC]
  · norm_num [ServeManifest, manifestLoop, effElapsed, newStart, totalDuration,
      cumDur, futureTime, pl3, sA, sB, sC]
    exact List.cons_ne_nil _ _

/-- Claim C9 (amended): every `/live/` request except `/live/manifest.m3u8`
is served by the verbatim static file server (no windowing, no rate
limiting) and leaves the stream clock untouched; `/live/manifest.m3u8`,
however, is routed to the windowed, clock-resetting manifest handler. -/
theorem c9_live_path (p : String) (pl : MediaPlaylist) (startTime now : ℚ)
    (hp : hasPrefixStr p "/live/" = true) (hm : p ≠ "/live/manifest.m3u8") :
    muxDispatch p = Action.file (dropChars p 6) ∧
    requestNewStartTime pl startTime now p = startTime ∧
    muxDispatch "/live/manifest.m3u8" = Action.manifest := by
  have h1 : muxDispatch p = Action.file (dropChars p 6) := by
    simp [muxDispatch, hm, hp]
  exact ⟨h1, by simp [requestNewStartTime, h1], by decide⟩

/-- Witness for the amended C9 at the path `/live/seg0.ts`. -/
theorem c9_live_path_witness :
    muxDispatch "/live/seg0.ts" = Action.file (dropChars "/live/seg0.ts" 6) ∧
    requestNewStartTime pl3 4 7 "/live/seg0.ts" = 4 ∧
    muxDispatch "/live/manifest.m3u8" = Action.manifest :=
  c9_live_path "/live/seg0.ts" pl3 4 7 (by decide) (by decide)

/-- Claim C10 (confirmed): the emitted window is the spec-described
qualifying run truncated to at most 10 segments — the output playlist is
allocated with capacity 10 and the `AppendSegment` overflow error is
ignored, silently dropping qualifying segments beyond the tenth. -/
theorem c10_capacity (pl : MediaPlaylist) (startTime now : ℚ) :
    (ServeManifest pl startTime now).window =
      (specWindow pl.targetDuration (effElapsed pl startTime now) 0 pl.segments).take 10 ∧
    (ServeManifest pl startTime now).window.length ≤ 10 := by
  have h := manifestLoop_fst pl.targetDuration (effElapsed pl startTime now)
    pl.segments 0 0 (-1) []
  have h1 : (ServeManifest pl startTime now).window =
      (specWindow pl.targetDuration (effElapsed pl startTime now) 0 pl.segments).take 10 := by
    simpa [ServeManifest] using h
  refine ⟨h1, ?_⟩
  rw [h1]
  exact List.length_take_le 10 _

end LHLS
